import Mathlib

/-!
Verification of the HPKP (RFC 7469) trust store implemented in
`src/libwget/hpkp.c` of wget2.

The shallow embedding below translates the C module definition by
definition.  External collaborators of the module that live elsewhere in
the repository (the generic vector/hashmap containers, base64
encode/decode, IRI parsing, `time(2)`, `getline`) are modelled per the
specification's narrow contracts:

- the entry hashmap is modelled as a list of entries keyed by `host`
  (exact string equality, as established by `__cmp_hpkp_cb`);
- the pin vector is modelled as a `List` of pins, with the byte-exact
  32-byte comparison of `__cmp_pins_cb`;
- base64 encode/decode and IRI host validation are passed in as
  parameters (`enc`, `dec`, `vh`); theorems state the contracts they
  rely on as hypotheses;
- the current time is passed in as an `Int` parameter (`time_t` values
  are modelled as unbounded integers, with the `%lu` / `strtoul`
  64-bit conversions modelled explicitly at the persistence boundary);
- a file is modelled as the list of its lines (without the trailing
  newline, as delivered by `wget_getline`).
-/

/-- A pin: a byte sequence (an SPKI SHA-256 digest, 32 bytes in use). -/
abbrev Pin := List Nat

/-- Models `struct __wget_hpkp_st` (hpkp.c:43-54): one host's pinning
record.  `include_subdomains` is a `char` used as a boolean; it is
modelled as `Bool`. -/
structure wget_hpkp_t where
  host : List Char
  created : Int
  max_age : Int
  include_subdomains : Bool
  pins : List Pin
deriving DecidableEq, Repr

/-- Models the `entries` hashmap of `struct __wget_hpkp_db_st`
(hpkp.c:36-41): the store is its entry index, keyed by `host`. -/
abbrev wget_hpkp_db_t := List wget_hpkp_t

/-- The `WGET_HPKP_*` return codes of the module (declared in the
repository's `wget.h`; the source comments at hpkp.c:236-251 list them:
`OK`, `WAS_DELETED`, `ENTRY_EXPIRED`, `NOT_ENOUGH_PINS`, `ENTRY_EXISTS`,
`ERROR`, plus `ERROR_FILE_OPEN` used by save/load). -/
inductive HpkpStatus where
  | OK
  | ERROR
  | ENTRY_EXISTS
  | WAS_DELETED
  | ENTRY_EXPIRED
  | NOT_ENOUGH_PINS
  | ERROR_FILE_OPEN
deriving DecidableEq, Repr

/-- Models `__cmp_pins_cb` (hpkp.c:94-106): two pins compare equal iff
their first 32 bytes agree byte-for-byte (`true` here corresponds to the
callback returning 0). -/
def cmp_pins_eq (p1 p2 : Pin) : Bool :=
  (List.range 32).all (fun i => p1.getD i 0 == p2.getD i 0)

/-- Models `wget_vector_contains` on a pin vector: membership under
`__cmp_pins_cb`. -/
def pins_contains (pins : List Pin) (p : Pin) : Bool :=
  pins.any (fun q => cmp_pins_eq q p)

/-- Models `__wget_hpkp_contains_spki_cb` (hpkp.c:207-210): nonzero
(`true`) iff the pin is NOT contained in `hpkp`'s pin vector. -/
def __wget_hpkp_contains_spki_cb (hpkp : wget_hpkp_t) (spki : Pin) : Bool :=
  !(pins_contains hpkp.pins spki)

/-- Models `__wget_hpkp_compare_spkis` (hpkp.c:212-215):
`wget_vector_browse` over `h1.pins` with context `h2` returns the first
nonzero callback result, i.e. `true` iff some pin of `h1` is missing
from `h2`'s pin vector. -/
def __wget_hpkp_compare_spkis (h1 h2 : wget_hpkp_t) : Bool :=
  h1.pins.any (fun p => __wget_hpkp_contains_spki_cb h2 p)

/-- The pin-set subset predicate in the specification's words
(spec §4.1): `pins_subset_of a b` is true iff every pin of `a` is found
in `b`.  Stated here only to compare the code's behaviour against the
specification's description of the update test. -/
def pins_subset_of (a b : List Pin) : Bool :=
  a.all (fun p => pins_contains b p)

/-- Models `wget_hashmap_get` on the entry index: first entry whose host
compares equal (`__cmp_hpkp_cb` is `strcmp`). -/
def hpkp_db_get (db : wget_hpkp_db_t) (host : List Char) : Option wget_hpkp_t :=
  db.find? (fun e => e.host == host)

/-- Models `wget_hashmap_put_noalloc` on the entry index: replace the
entry with the same host if present, otherwise append. -/
def hpkp_db_put (db : wget_hpkp_db_t) (e : wget_hpkp_t) : wget_hpkp_db_t :=
  if db.any (fun x => x.host == e.host) then
    db.map (fun x => if x.host == e.host then e else x)
  else db ++ [e]

/-- Models `wget_hashmap_remove` on the entry index. -/
def hpkp_db_remove (db : wget_hpkp_db_t) (host : List Char) : wget_hpkp_db_t :=
  db.filter (fun e => !(e.host == host))

/-- Models `wget_hpkp_new` (hpkp.c:134-154): a fresh entry with an empty
pin vector. -/
def wget_hpkp_new (host : List Char) (created max_age : Int)
    (include_subdomains : Bool) : wget_hpkp_t :=
  ⟨host, created, max_age, include_subdomains, []⟩

/-- Models `__wget_hpkp_db_put_base64_spki` (hpkp.c:217-234): decode the
base64 pin and add it to the entry's pin vector if not already present.
`dec` models `wget_base64_decode_alloc` (repository code outside this
module). -/
def __wget_hpkp_db_put_base64_spki (dec : List Char → Pin)
    (hpkp : wget_hpkp_t) (b64 : List Char) : wget_hpkp_t :=
  let pubkey := dec b64
  if pins_contains hpkp.pins pubkey then hpkp
  else { hpkp with pins := hpkp.pins ++ [pubkey] }

/-- Models `__wget_hpkp_db_add` (hpkp.c:253-303), the admission engine.
`curtime` models the value obtained from `time(NULL)` inside the
function.  Returns the status together with the resulting store (the C
function mutates the store in place). -/
def __wget_hpkp_db_add (db : wget_hpkp_db_t) (hn : wget_hpkp_t)
    (excl : Bool) (curtime : Int) : HpkpStatus × wget_hpkp_db_t :=
  if hn.max_age > 0 ∧ hn.created + hn.max_age < curtime then
    (.ENTRY_EXPIRED, db)
  else
    let num_pins := hn.pins.length
    match hpkp_db_get db hn.host with
    | some hpkp =>
      if excl then (.ENTRY_EXISTS, db)
      else if hn.max_age ≠ 0 ∧ 2 ≤ num_pins then
        if hpkp.created < hn.created ∧
            (hpkp.include_subdomains ≠ hn.include_subdomains ∨
             hpkp.max_age ≠ hn.max_age ∨
             __wget_hpkp_compare_spkis hpkp hn = true) then
          (.OK, hpkp_db_put db hn)
        else (.ENTRY_EXISTS, db)
      else if hn.max_age = 0 ∨ num_pins = 0 then
        (.WAS_DELETED, hpkp_db_remove db hpkp.host)
      else if num_pins < 2 then (.NOT_ENOUGH_PINS, db)
      else (.ERROR, db)
    | none =>
      if hn.max_age ≠ 0 ∧ 2 ≤ num_pins then (.OK, hpkp_db_put db hn)
      else if num_pins < 2 then (.NOT_ENOUGH_PINS, db)
      else (.ERROR, db)

/-- Models the public `wget_hpkp_db_add` (hpkp.c:336-356): build a
candidate stamped with `cur_time` (the `time(NULL)` call at
hpkp.c:339), fill its pins from the base64 list, and submit it
non-exclusively.  `check_time` models the separate `time(NULL)` call
made inside `__wget_hpkp_db_add`. -/
def wget_hpkp_db_add (dec : List Char → Pin) (db : wget_hpkp_db_t)
    (host : List Char) (max_age : Int) (include_subdomains : Bool)
    (b64_pins : List (List Char)) (cur_time check_time : Int) :
    HpkpStatus × wget_hpkp_db_t :=
  let hpkp := b64_pins.foldl (fun h b => __wget_hpkp_db_put_base64_spki dec h b)
      (wget_hpkp_new host cur_time max_age include_subdomains)
  __wget_hpkp_db_add db hpkp false check_time

/-! ### Basic facts about the store index -/

lemma hpkp_db_get_host (db : wget_hpkp_db_t) (h : List Char) (e : wget_hpkp_t)
    (hget : hpkp_db_get db h = some e) : e.host = h := by
  have hp := List.find?_some hget
  simpa using hp

lemma hpkp_db_get_remove (db : wget_hpkp_db_t) (h : List Char) :
    hpkp_db_get (hpkp_db_remove db h) h = none := by
  unfold hpkp_db_get hpkp_db_remove
  rw [List.find?_eq_none]
  intro e he
  have hm := (List.mem_filter.mp he).2
  simp at hm
  simp [hm]

lemma compare_spkis_eq_not_subset (a b : wget_hpkp_t) :
    __wget_hpkp_compare_spkis a b = !pins_subset_of a.pins b.pins := by
  unfold __wget_hpkp_compare_spkis pins_subset_of __wget_hpkp_contains_spki_cb
  induction a.pins with
  | nil => rfl
  | cons p ps ih => simp [List.any_cons, List.all_cons, ih, Bool.not_and]

@[simp] lemma put_base64_host (dec : List Char → Pin) (h : wget_hpkp_t) (b : List Char) :
    (__wget_hpkp_db_put_base64_spki dec h b).host = h.host := by
  simp only [__wget_hpkp_db_put_base64_spki]
  split <;> rfl

@[simp] lemma put_base64_created (dec : List Char → Pin) (h : wget_hpkp_t) (b : List Char) :
    (__wget_hpkp_db_put_base64_spki dec h b).created = h.created := by
  simp only [__wget_hpkp_db_put_base64_spki]
  split <;> rfl

@[simp] lemma put_base64_max_age (dec : List Char → Pin) (h : wget_hpkp_t) (b : List Char) :
    (__wget_hpkp_db_put_base64_spki dec h b).max_age = h.max_age := by
  simp only [__wget_hpkp_db_put_base64_spki]
  split <;> rfl

lemma put_base64_foldl_created (dec : List Char → Pin) (l : List (List Char)) (h : wget_hpkp_t) :
    (l.foldl (fun h b => __wget_hpkp_db_put_base64_spki dec h b) h).created = h.created := by
  induction l generalizing h with
  | nil => rfl
  | cons b bs ih => simp [List.foldl_cons, ih]

/-- The candidate has the same `created` stamp as the admission time, so the
expiry test cannot fire: helper for claim C10. -/
lemma add_same_time_not_expired (db : wget_hpkp_db_t) (hn : wget_hpkp_t)
    (excl : Bool) (t : Int) (hc : hn.created = t) :
    (__wget_hpkp_db_add db hn excl t).1 ≠ .ENTRY_EXPIRED := by
  simp only [__wget_hpkp_db_add]
  rw [if_neg (by rw [hc]; omega)]
  cases hget : hpkp_db_get db hn.host <;> simp only [hget] <;> split_ifs <;> simp

/-! ### Claim theorems on the admission engine -/

/-- Claim C4: an already-expired candidate (`max_age > 0` and
`created + max_age < now`) is rejected with `ENTRY_EXPIRED` and the store
is left unchanged, for every store and both admission modes. -/
theorem c4_expired_candidate_rejected (db : wget_hpkp_db_t) (hn : wget_hpkp_t)
    (excl : Bool) (now : Int) (hpos : 0 < hn.max_age)
    (hexp : hn.created + hn.max_age < now) :
    __wget_hpkp_db_add db hn excl now = (.ENTRY_EXPIRED, db) := by
  simp only [__wget_hpkp_db_add]
  rw [if_pos ⟨hpos, hexp⟩]

theorem c4_expired_candidate_rejected_witness :
    (0:Int) < 100 ∧ (-10000:Int) + 100 < 0 ∧
    __wget_hpkp_db_add [] ⟨['h'], -10000, 100, false, []⟩ true 0 = (.ENTRY_EXPIRED, []) :=
  ⟨by decide, by decide,
    c4_expired_candidate_rejected [] ⟨['h'], -10000, 100, false, []⟩ true 0
      (by decide) (by decide)⟩

/-- Claim C6: a non-expired candidate for a resident host with
`max_age == 0` or an empty pin set deletes the resident entry
(non-exclusive admission): the result is `WAS_DELETED`, the store drops
the entry, and a subsequent lookup of the host fails. -/
theorem c6_deletion (db : wget_hpkp_db_t) (hn e : wget_hpkp_t) (now : Int)
    (hget : hpkp_db_get db hn.host = some e)
    (hnx : ¬(0 < hn.max_age ∧ hn.created + hn.max_age < now))
    (hdel : hn.max_age = 0 ∨ hn.pins = []) :
    __wget_hpkp_db_add db hn false now = (.WAS_DELETED, hpkp_db_remove db hn.host) ∧
    hpkp_db_get (__wget_hpkp_db_add db hn false now).2 hn.host = none := by
  have hhost := hpkp_db_get_host db hn.host e hget
  have heq : __wget_hpkp_db_add db hn false now = (.WAS_DELETED, hpkp_db_remove db hn.host) := by
    simp only [__wget_hpkp_db_add]
    rw [if_neg hnx]
    simp only [hget]
    rw [if_neg (by simp)]
    rw [if_neg (by rintro ⟨h1, h2⟩; rcases hdel with h | h; exact h1 h; simp [h] at h2)]
    rw [if_pos (by rcases hdel with h | h; exact Or.inl h; exact Or.inr (by simp [h]))]
    rw [hhost]
  exact ⟨heq, by rw [heq]; exact hpkp_db_get_remove db hn.host⟩

theorem c6_deletion_witness :
    (hpkp_db_get [⟨['h'], 0, 100, false, [List.replicate 32 0, List.replicate 32 1]⟩]
        ['h'] = some ⟨['h'], 0, 100, false, [List.replicate 32 0, List.replicate 32 1]⟩) ∧
    __wget_hpkp_db_add [⟨['h'], 0, 100, false, [List.replicate 32 0, List.replicate 32 1]⟩]
        ⟨['h'], 5, 0, false, []⟩ false 5 = (.WAS_DELETED, []) ∧
    hpkp_db_get (__wget_hpkp_db_add
        [⟨['h'], 0, 100, false, [List.replicate 32 0, List.replicate 32 1]⟩]
        ⟨['h'], 5, 0, false, []⟩ false 5).2 ['h'] = none := by
  have h := c6_deletion [⟨['h'], 0, 100, false, [List.replicate 32 0, List.replicate 32 1]⟩]
    ⟨['h'], 5, 0, false, []⟩ ⟨['h'], 0, 100, false, [List.replicate 32 0, List.replicate 32 1]⟩ 5
    (by decide) (by decide) (Or.inl (by decide))
  exact ⟨by decide, by rw [h.1]; decide, h.2⟩

/-- Claim C10: the public `wget_hpkp_db_add` stamps the candidate's
`created` field with the current time, so when the time source yields
the same value for the stamping and for the admission check, the
admission can never report `ENTRY_EXPIRED`. -/
theorem c10_public_add_never_expired (dec : List Char → Pin) (db : wget_hpkp_db_t)
    (host : List Char) (max_age : Int) (include_subdomains : Bool)
    (b64_pins : List (List Char)) (t : Int) :
    (wget_hpkp_db_add dec db host max_age include_subdomains b64_pins t t).1 ≠
      .ENTRY_EXPIRED := by
  unfold wget_hpkp_db_add
  exact add_same_time_not_expired _ _ _ _
    (put_base64_foldl_created dec b64_pins (wget_hpkp_new host t max_age include_subdomains))

/-- Claim C8, counterexample: the catch-all `ERROR` outcome of the
admission engine is reachable, contradicting the claim that the branches
of steps 1-7 cover all cases.  A candidate with `max_age == 0`, at least
2 pins and no resident entry for its host falls through every branch. -/
theorem c8_counterexample :
    __wget_hpkp_db_add [] ⟨['h'], 0, 0, false, [List.replicate 32 0, List.replicate 32 1]⟩
      false 0 = (.ERROR, []) := by decide

/-- Claim C8, amended: the admission engine returns `ERROR` exactly when
there is no resident entry for the candidate's host, the candidate's
`max_age` is zero and it carries at least two pins; in every other case
one of the outcomes of steps 1-7 applies.  (The `ERROR` case leaves the
store unchanged.) -/
theorem c8_error_reachable_exactly (db : wget_hpkp_db_t) (hn : wget_hpkp_t)
    (excl : Bool) (t : Int) :
    (__wget_hpkp_db_add db hn excl t).1 = .ERROR ↔
      hpkp_db_get db hn.host = none ∧ hn.max_age = 0 ∧ 2 ≤ hn.pins.length := by
  simp only [__wget_hpkp_db_add]
  by_cases hx : hn.max_age > 0 ∧ hn.created + hn.max_age < t
  · rw [if_pos hx]
    simp only [reduceCtorEq, false_iff, not_and]
    intro _ h0
    omega
  · rw [if_neg hx]
    cases hget : hpkp_db_get db hn.host with
    | none =>
      simp only [hget]
      split_ifs with h1 h2
      · simp only [reduceCtorEq, false_iff, not_and]
        intro _ h0
        exact absurd h0 h1.1
      · simp only [reduceCtorEq, false_iff, not_and]
        intro _ _ hlen
        omega
      · simp only [true_iff]
        refine ⟨trivial, ?_, by omega⟩
        by_contra h0
        exact h1 ⟨h0, by omega⟩
    | some e =>
      simp only [hget]
      split_ifs with hA hB hC hD hE
      · simp
      · simp
      · simp
      · simp
      · simp
      · simp only [true_iff]
        exfalso
        rcases Nat.lt_or_ge hn.pins.length 2 with hl | hl
        · exact hE hl
        · by_cases hm : hn.max_age = 0
          · exact hD (Or.inl hm)
          · exact hB ⟨hm, hl⟩

/-- Claim C1, counterexample: the claim's update condition predicts a
replacement whenever the candidate's pin set is not a subset of the
existing one.  Here the candidate (same host, newer `created`, same
flags and `max_age`) strictly extends the existing pin set, so the
claim's condition holds — the candidate's pins are NOT a subset of the
existing pins — yet the code keeps the old entry and returns
`ENTRY_EXISTS`: the code's test runs in the opposite direction
(`__wget_hpkp_compare_spkis existing candidate`). -/
theorem c1_counterexample :
    __wget_hpkp_db_add [⟨['h'], 0, 100, false, [List.replicate 32 0, List.replicate 32 1]⟩]
        ⟨['h'], 1, 100, false,
          [List.replicate 32 0, List.replicate 32 1, List.replicate 32 2]⟩ false 0 =
      (.ENTRY_EXISTS, [⟨['h'], 0, 100, false, [List.replicate 32 0, List.replicate 32 1]⟩]) ∧
    ((0:Int) < 1 ∧
      pins_subset_of [List.replicate 32 0, List.replicate 32 1, List.replicate 32 2]
        [List.replicate 32 0, List.replicate 32 1] = false) := by
  constructor
  · decide
  · decide

/-- Claim C1, amended: for a resident entry `e` and a same-host
candidate `hn` with `max_age ≠ 0`, at least 2 pins and not expired,
non-exclusive admission replaces `e` with `hn` and returns `OK` if and
only if `e.created < hn.created` and (the `include_subdomains` flags
differ, or the `max_age` values differ, or the EXISTING entry's pin set
is not a subset of the CANDIDATE's pin set) — i.e. the one-directional
test is `subset_of(existing, candidate)`, not
`subset_of(candidate, existing)`; otherwise it returns `ENTRY_EXISTS`
and leaves the store unchanged. -/
theorem c1_update_condition (db : wget_hpkp_db_t) (hn e : wget_hpkp_t) (now : Int)
    (hget : hpkp_db_get db hn.host = some e)
    (hma : hn.max_age ≠ 0) (hp : 2 ≤ hn.pins.length)
    (hnx : ¬(0 < hn.max_age ∧ hn.created + hn.max_age < now)) :
    (__wget_hpkp_db_add db hn false now = (.OK, hpkp_db_put db hn) ↔
      (e.created < hn.created ∧
        (e.include_subdomains ≠ hn.include_subdomains ∨ e.max_age ≠ hn.max_age ∨
          pins_subset_of e.pins hn.pins = false))) ∧
    (¬(e.created < hn.created ∧
        (e.include_subdomains ≠ hn.include_subdomains ∨ e.max_age ≠ hn.max_age ∨
          pins_subset_of e.pins hn.pins = false)) →
      __wget_hpkp_db_add db hn false now = (.ENTRY_EXISTS, db)) := by
  have hconv : (__wget_hpkp_compare_spkis e hn = true) ↔
      (pins_subset_of e.pins hn.pins = false) := by
    rw [compare_spkis_eq_not_subset]
    cases pins_subset_of e.pins hn.pins <;> simp
  have hred : __wget_hpkp_db_add db hn false now =
      if e.created < hn.created ∧
          (e.include_subdomains ≠ hn.include_subdomains ∨ e.max_age ≠ hn.max_age ∨
            pins_subset_of e.pins hn.pins = false) then
        (.OK, hpkp_db_put db hn)
      else (.ENTRY_EXISTS, db) := by
    simp only [__wget_hpkp_db_add]
    rw [if_neg hnx]
    simp only [hget]
    rw [if_neg (by simp)]
    rw [if_pos ⟨hma, hp⟩]
    simp only [hconv]
  rw [hred]
  by_cases hcond : e.created < hn.created ∧
      (e.include_subdomains ≠ hn.include_subdomains ∨ e.max_age ≠ hn.max_age ∨
        pins_subset_of e.pins hn.pins = false)
  · rw [if_pos hcond]
    exact ⟨⟨fun _ => hcond, fun _ => rfl⟩, fun hc => absurd hcond hc⟩
  · rw [if_neg hcond]
    refine ⟨⟨fun hc => ?_, fun hc => absurd hc hcond⟩, fun _ => rfl⟩
    exact absurd (congrArg Prod.fst hc) (by simp)

theorem c1_update_condition_witness :
    (hpkp_db_get [⟨['h'], 0, 100, false, [List.replicate 32 0, List.replicate 32 1]⟩]
        ['h'] = some ⟨['h'], 0, 100, false, [List.replicate 32 0, List.replicate 32 1]⟩) ∧
    (__wget_hpkp_db_add [⟨['h'], 0, 100, false, [List.replicate 32 0, List.replicate 32 1]⟩]
        ⟨['h'], 1, 200, false, [List.replicate 32 0, List.replicate 32 1]⟩ false 0 =
      (.OK, hpkp_db_put [⟨['h'], 0, 100, false, [List.replicate 32 0, List.replicate 32 1]⟩]
        ⟨['h'], 1, 200, false, [List.replicate 32 0, List.replicate 32 1]⟩) ↔
      ((0:Int) < 1 ∧ (false ≠ false ∨ (100:Int) ≠ 200 ∨
        pins_subset_of [List.replicate 32 0, List.replicate 32 1]
          [List.replicate 32 0, List.replicate 32 1] = false))) := by
  constructor
  · decide
  · exact (c1_update_condition
      [⟨['h'], 0, 100, false, [List.replicate 32 0, List.replicate 32 1]⟩]
      ⟨['h'], 1, 200, false, [List.replicate 32 0, List.replicate 32 1]⟩
      ⟨['h'], 0, 100, false, [List.replicate 32 0, List.replicate 32 1]⟩ 0
      (by decide) (by decide) (by decide) (by decide)).1

/-! ### The persistence format parser (hpkp.c:486-646) -/

/-- The whitespace set of the narrowed `isspace` macro (hpkp.c:497):
space and tab only. -/
def isWS (c : Char) : Bool := c == ' ' || c == '\t'

def notWS (c : Char) : Bool := !isWS c

/-- Models `__parse_hostname` (hpkp.c:499-513): `sscanf("%ms")` reads
the first whitespace-delimited token; the cursor is then advanced from
the START of the line by the token's length (the source's quirk), and
the character there must be whitespace or the end of the line. -/
def __parse_hostname (cs : List Char) : Option (List Char × List Char) :=
  let out := (cs.dropWhile isWS).takeWhile notWS
  if out.isEmpty then none
  else
    match cs.drop out.length with
    | [] => some (out, [])
    | c :: rest => if isWS c then some (out, c :: rest) else none

/-- Models `__next_token` (hpkp.c:515-529): skip spaces/tabs; succeeds
iff a character remains. -/
def __next_token (cs : List Char) : Option (List Char) :=
  let r := cs.dropWhile isWS
  if r.isEmpty then none else some r

/-- The digit scan of `__parse_number_unsigned` (hpkp.c:537-544):
consume digits; stop at space/tab or end of string; any other character
is a parse error. -/
def scanDigits : List Char → Option (List Char × List Char)
  | [] => some ([], [])
  | c :: cs =>
    if c.isDigit then
      match scanDigits cs with
      | some (ds, r) => some (c :: ds, r)
      | none => none
    else if isWS c then some ([], c :: cs)
    else none

/-- Decimal value of an all-digit string (what `strtoul(dst, NULL, 10)`
computes before overflow capping). -/
def digitsToNat (ds : List Char) : Nat :=
  ds.foldl (fun a c => a * 10 + (c.toNat - 48)) 0

/-- ULONG_MAX on the 64-bit platforms the module targets. -/
def ULONG_MAX : Nat := 18446744073709551615

/-- Models `__parse_number_unsigned` (hpkp.c:531-562): at least one
digit, no leading zero (except the literal `0`), value capped at
`ULONG_MAX` as `strtoul` caps on overflow. -/
def __parse_number_unsigned (cs : List Char) : Option (Nat × List Char) :=
  match scanDigits cs with
  | none => none
  | some (ds, r) =>
    if ds.isEmpty then none
    else if ds.head? = some '0' ∧ 1 < ds.length then none
    else some (min (digitsToNat ds) ULONG_MAX, r)

/-- Models `__parse_digit` (hpkp.c:564-575). -/
def __parse_digit : List Char → Option (Nat × List Char)
  | [] => none
  | c :: cs => if c.isDigit then some (c.toNat - 48, cs) else none

/-- Reinterpretation of a parsed `unsigned long` as a `time_t` of the
same width (the pointer casts at hpkp.c:599-603). -/
def intOfUL (n : Nat) : Int :=
  if n < 9223372036854775808 then (n : Int) else (n : Int) - 18446744073709551616

/-- Models `__wget_hpkp_parse_host_line` (hpkp.c:577-626).  `vh` models
the external IRI check: `vh host = true` iff `wget_iri_parse` succeeds
and the parsed host is not a literal IP address (spec §1 consumes this
collaborator as a boolean). -/
def __wget_hpkp_parse_host_line (vh : List Char → Bool) (line : List Char) :
    Option (List Char × Int × Int × Bool × Nat) :=
  match __parse_hostname line with
  | none => none
  | some (host, r0) =>
    if vh host then
      match __next_token r0 with
      | none => none
      | some r1 =>
        match __parse_number_unsigned r1 with
        | none => none
        | some (created, r2) =>
          match __next_token r2 with
          | none => none
          | some r3 =>
            match __parse_number_unsigned r3 with
            | none => none
            | some (max_age, r4) =>
              match __next_token r4 with
              | none => none
              | some r5 =>
                match __parse_digit r5 with
                | none => none
                | some (d, r6) =>
                  if 1 < d then none
                  else
                    match __next_token r6 with
                    | none => none
                    | some r7 =>
                      match __parse_number_unsigned r7 with
                      | none => none
                      | some (num_pins, _) =>
                        if 0 < num_pins then
                          some (host, intOfUL created, intOfUL max_age, d == 1, num_pins)
                        else none
    else none

/-- Models `__wget_hpkp_parse_pin_line` (hpkp.c:628-646):
`sscanf("%s\t%ms")` reads two whitespace-delimited tokens; the first
must be `sha-256`; the second (the base64 pin) is returned. -/
def __wget_hpkp_parse_pin_line (line : List Char) : Option (List Char) :=
  let r1 := line.dropWhile isWS
  let t1 := r1.takeWhile notWS
  if t1.isEmpty then none
  else
    let r2 := (r1.drop t1.length).dropWhile isWS
    let t2 := r2.takeWhile notWS
    if t2.isEmpty then none
    else if t1 = "sha-256".data then some t2 else none

/-! ### The load loop (hpkp.c:671-778) -/

/-- Parser states of the load loop: waiting for the `version 1` line,
waiting for a host line, or reading the announced number of pin lines of
the current record. -/
inductive LoadState where
  | expectVersion
  | expectHost
  | expectPins (cand : wget_hpkp_t) (n : Nat)
deriving DecidableEq, Repr

def versionLine : List Char := "version 1".data

/-- Comment test of the load loop (hpkp.c:694): a line whose first
character is `#` (checked only for lines read by the outer loop, not
for pin lines). -/
def isComment (l : List Char) : Bool :=
  match l with
  | c :: _ => c == '#'
  | [] => false

/-- The line loop of `wget_hpkp_db_load` (hpkp.c:692-772) over the
file's lines.  Per-record admission outcomes all continue the loop (the
`switch` at hpkp.c:745-764 has no fatal case and leaves `retval = 0`);
syntactic malformation stops it with `ERROR`; end of file inside a pin
block is the error at hpkp.c:726-731; end of file otherwise yields
`OK`. -/
def loadAux (vh : List Char → Bool) (dec : List Char → Pin) (now : Int) :
    List (List Char) → wget_hpkp_db_t → LoadState → HpkpStatus × wget_hpkp_db_t
  | [], db, .expectPins _ _ => (.ERROR, db)
  | [], db, .expectVersion => (.OK, db)
  | [], db, .expectHost => (.OK, db)
  | l :: ls, db, .expectVersion =>
    if isComment l then loadAux vh dec now ls db .expectVersion
    else if l = versionLine then loadAux vh dec now ls db .expectHost
    else (.ERROR, db)
  | l :: ls, db, .expectHost =>
    if isComment l then loadAux vh dec now ls db .expectHost
    else
      match __wget_hpkp_parse_host_line vh l with
      | none => (.ERROR, db)
      | some (host, created, max_age, isd, num_pins) =>
        loadAux vh dec now ls db
          (.expectPins (wget_hpkp_new host created max_age isd) num_pins)
  | l :: ls, db, .expectPins cand n =>
    match __wget_hpkp_parse_pin_line l with
    | none => (.ERROR, db)
    | some b64 =>
      let cand' := __wget_hpkp_db_put_base64_spki dec cand b64
      if n ≤ 1 then
        loadAux vh dec now ls (__wget_hpkp_db_add db cand' true now).2 .expectHost
      else loadAux vh dec now ls db (.expectPins cand' (n - 1))

/-- Models `wget_hpkp_db_load` (hpkp.c:671-778).  `filenameOk` models
the null/empty-filename test at hpkp.c:685; `openOk` models `fopen`
succeeding; the file is the list of its lines. -/
def wget_hpkp_db_load (vh : List Char → Bool) (dec : List Char → Pin) (now : Int)
    (filenameOk openOk : Bool) (lines : List (List Char)) (db : wget_hpkp_db_t) :
    HpkpStatus × wget_hpkp_db_t :=
  if !filenameOk then (.ERROR, db)
  else if !openOk then (.ERROR_FILE_OPEN, db)
  else loadAux vh dec now lines db .expectVersion

/-- Reads the `n` announced pin lines into the candidate (the inner loop
at hpkp.c:723-743), returning the finished candidate and the remaining
lines, or `none` on end of file or a malformed pin line. -/
def readPins (dec : List Char → Pin) :
    List (List Char) → Nat → wget_hpkp_t → Option (wget_hpkp_t × List (List Char))
  | [], _, _ => none
  | l :: ls, n, cand =>
    match __wget_hpkp_parse_pin_line l with
    | none => none
    | some b64 =>
      let cand' := __wget_hpkp_db_put_base64_spki dec cand b64
      if n ≤ 1 then some (cand', ls) else readPins dec ls (n - 1) cand'

/-- Outcome of consuming one record from the remaining lines. -/
inductive RecStep where
  | eof
  | bad
  | record (cand : wget_hpkp_t) (rest : List (List Char))
deriving DecidableEq, Repr

/-- One record of the persistence format, as the load loop consumes it
after the version line: skip comment lines, parse a host line, then
read the announced number of pin lines. -/
def nextRecord (vh : List Char → Bool) (dec : List Char → Pin) :
    List (List Char) → RecStep
  | [] => .eof
  | l :: ls =>
    if isComment l then nextRecord vh dec ls
    else
      match __wget_hpkp_parse_host_line vh l with
      | none => .bad
      | some (host, created, max_age, isd, num_pins) =>
        match readPins dec ls num_pins (wget_hpkp_new host created max_age isd) with
        | none => .bad
        | some (cand, rest) => .record cand rest

/-- Iterate `nextRecord` and exclusive admission `k` times. -/
def processRecords (vh : List Char → Bool) (dec : List Char → Pin) (now : Int) :
    Nat → List (List Char) → wget_hpkp_db_t → Option (wget_hpkp_db_t × List (List Char))
  | 0, ls, db => some (db, ls)
  | k + 1, ls, db =>
    match nextRecord vh dec ls with
    | .record cand rest =>
      processRecords vh dec now k rest (__wget_hpkp_db_add db cand true now).2
    | _ => none

/-! ### Record-level view of the load loop -/

lemma add_snd_unchanged (db : wget_hpkp_db_t) (hn : wget_hpkp_t) (excl : Bool) (t : Int)
    (h1 : (__wget_hpkp_db_add db hn excl t).1 ≠ .OK)
    (h2 : (__wget_hpkp_db_add db hn excl t).1 ≠ .WAS_DELETED) :
    (__wget_hpkp_db_add db hn excl t).2 = db := by
  simp only [__wget_hpkp_db_add] at h1 h2 ⊢
  cases hget : hpkp_db_get db hn.host <;>
    simp only [hget] at h1 h2 ⊢ <;>
    split_ifs at h1 h2 ⊢ <;>
    first
      | rfl
      | (exact absurd rfl h1)
      | (exact absurd rfl h2)

lemma loadAux_pins (vh : List Char → Bool) (dec : List Char → Pin) (now : Int) :
    ∀ (ls : List (List Char)) (n : Nat) (cand : wget_hpkp_t) (db : wget_hpkp_db_t),
      (readPins dec ls n cand = none →
        loadAux vh dec now ls db (.expectPins cand n) = (.ERROR, db)) ∧
      (∀ cand' rest, readPins dec ls n cand = some (cand', rest) →
        loadAux vh dec now ls db (.expectPins cand n) =
          loadAux vh dec now rest (__wget_hpkp_db_add db cand' true now).2 .expectHost) := by
  intro ls
  induction ls with
  | nil =>
    intro n cand db
    exact ⟨fun _ => rfl, fun cand' rest h => by simp [readPins] at h⟩
  | cons l ls ih =>
    intro n cand db
    cases hp : __wget_hpkp_parse_pin_line l with
    | none =>
      refine ⟨fun _ => by simp [loadAux, hp], fun cand' rest h => ?_⟩
      simp [readPins, hp] at h
    | some b64 =>
      by_cases hn1 : n ≤ 1
      · refine ⟨fun h => ?_, fun cand' rest h => ?_⟩
        · simp [readPins, hp, hn1] at h
        · simp only [readPins, hp, if_pos hn1] at h
          simp only [loadAux, hp, if_pos hn1]
          obtain ⟨h1, h2⟩ := Prod.mk.injEq .. ▸ (Option.some.injEq .. ▸ h)
          rw [← h1, ← h2]
      · refine ⟨fun h => ?_, fun cand' rest h => ?_⟩
        · simp only [readPins, hp, if_neg hn1] at h
          simp only [loadAux, hp, if_neg hn1]
          exact (ih (n - 1) _ db).1 h
        · simp only [readPins, hp, if_neg hn1] at h
          simp only [loadAux, hp, if_neg hn1]
          exact (ih (n - 1) _ db).2 cand' rest h

lemma loadAux_record (vh : List Char → Bool) (dec : List Char → Pin) (now : Int) :
    ∀ (ls : List (List Char)) (db : wget_hpkp_db_t),
      (nextRecord vh dec ls = .eof →
        loadAux vh dec now ls db .expectHost = (.OK, db)) ∧
      (nextRecord vh dec ls = .bad →
        loadAux vh dec now ls db .expectHost = (.ERROR, db)) ∧
      (∀ cand rest, nextRecord vh dec ls = .record cand rest →
        loadAux vh dec now ls db .expectHost =
          loadAux vh dec now rest (__wget_hpkp_db_add db cand true now).2 .expectHost) := by
  intro ls
  induction ls with
  | nil =>
    intro db
    exact ⟨fun _ => rfl, fun h => by simp [nextRecord] at h,
      fun cand rest h => by simp [nextRecord] at h⟩
  | cons l ls ih =>
    intro db
    by_cases hc : isComment l
    · have hnr : nextRecord vh dec (l :: ls) = nextRecord vh dec ls := by
        simp [nextRecord, hc]
      have hla : loadAux vh dec now (l :: ls) db .expectHost =
          loadAux vh dec now ls db .expectHost := by
        simp [loadAux, hc]
      refine ⟨fun h => ?_, fun h => ?_, fun cand rest h => ?_⟩
      · rw [hla]; exact (ih db).1 (by rw [← hnr]; exact h)
      · rw [hla]; exact (ih db).2.1 (by rw [← hnr]; exact h)
      · rw [hla]; exact (ih db).2.2 cand rest (by rw [← hnr]; exact h)
    · cases hh : __wget_hpkp_parse_host_line vh l with
      | none =>
        have hnr : nextRecord vh dec (l :: ls) = .bad := by simp [nextRecord, hc, hh]
        refine ⟨fun h => ?_, fun _ => by simp [loadAux, hc, hh], fun cand rest h => ?_⟩
        · rw [hnr] at h; simp at h
        · rw [hnr] at h; simp at h
      | some tup =>
        obtain ⟨host, created, max_age, isd, np⟩ := tup
        have hla : loadAux vh dec now (l :: ls) db .expectHost =
            loadAux vh dec now ls db
              (.expectPins (wget_hpkp_new host created max_age isd) np) := by
          simp [loadAux, hc, hh]
        cases hr : readPins dec ls np (wget_hpkp_new host created max_age isd) with
        | none =>
          have hnr : nextRecord vh dec (l :: ls) = .bad := by
            simp [nextRecord, hc, hh, hr]
          refine ⟨fun h => ?_, fun _ => ?_, fun cand rest h => ?_⟩
          · rw [hnr] at h; simp at h
          · rw [hla]; exact (loadAux_pins vh dec now ls np _ db).1 hr
          · rw [hnr] at h; simp at h
        | some pr =>
          obtain ⟨cand0, rest0⟩ := pr
          have hnr : nextRecord vh dec (l :: ls) = .record cand0 rest0 := by
            simp [nextRecord, hc, hh, hr]
          refine ⟨fun h => ?_, fun h => ?_, fun cand rest h => ?_⟩
          · rw [hnr] at h; simp at h
          · rw [hnr] at h; simp at h
          · rw [hnr] at h
            obtain ⟨h1, h2⟩ : cand0 = cand ∧ rest0 = rest := by
              cases h; exact ⟨rfl, rfl⟩
            rw [hla, ← h1, ← h2]
            exact (loadAux_pins vh dec now ls np _ db).2 cand0 rest0 hr

lemma processRecords_loadAux (vh : List Char → Bool) (dec : List Char → Pin) (now : Int) :
    ∀ (k : Nat) (body : List (List Char)) (db0 dbk : wget_hpkp_db_t)
      (rest : List (List Char)),
      processRecords vh dec now k body db0 = some (dbk, rest) →
      loadAux vh dec now body db0 .expectHost =
        loadAux vh dec now rest dbk .expectHost := by
  intro k
  induction k with
  | zero =>
    intro body db0 dbk rest hk
    simp only [processRecords, Option.some.injEq, Prod.mk.injEq] at hk
    rw [hk.1, hk.2]
  | succ k ih =>
    intro body db0 dbk rest hk
    simp only [processRecords] at hk
    cases hr : nextRecord vh dec body with
    | eof => rw [hr] at hk; simp at hk
    | bad => rw [hr] at hk; simp at hk
    | record cand rest' =>
      rw [hr] at hk
      rw [(loadAux_record vh dec now body db0).2.2 cand rest' hr]
      exact ih rest' _ dbk rest hk

/-- Claim C3: during load, a structurally well-formed record whose
exclusive admission returns `ENTRY_EXPIRED`, `NOT_ENOUGH_PINS` or
`ENTRY_EXISTS` is discarded and parsing continues with the next record
with the store unchanged; and a load that reaches end of file (after
the version line) returns overall success `OK`. -/
theorem c3_recoverable_record_outcomes (vh : List Char → Bool) (dec : List Char → Pin)
    (now : Int) (ls : List (List Char)) (db : wget_hpkp_db_t) (cand : wget_hpkp_t)
    (rest : List (List Char)) :
    (nextRecord vh dec ls = .record cand rest →
      ((__wget_hpkp_db_add db cand true now).1 = .ENTRY_EXPIRED ∨
        (__wget_hpkp_db_add db cand true now).1 = .NOT_ENOUGH_PINS ∨
        (__wget_hpkp_db_add db cand true now).1 = .ENTRY_EXISTS) →
      loadAux vh dec now ls db .expectHost = loadAux vh dec now rest db .expectHost) ∧
    (nextRecord vh dec ls = .eof → loadAux vh dec now ls db .expectHost = (.OK, db)) := by
  constructor
  · intro hrec hout
    have hs := (loadAux_record vh dec now ls db).2.2 cand rest hrec
    have hun : (__wget_hpkp_db_add db cand true now).2 = db := by
      apply add_snd_unchanged
      · rcases hout with h | h | h <;> simp [h]
      · rcases hout with h | h | h <;> simp [h]
    rw [hs, hun]
  · intro heof
    exact (loadAux_record vh dec now ls db).1 heof

theorem c3_recoverable_record_outcomes_witness :
    loadAux (fun _ => true) (fun cs => cs.map Char.toNat) 0
        ["h1\t5\t100\t0\t2".data, "sha-256\tAB".data, "sha-256\tCD".data]
        [⟨"h1".data, 0, 50, false, [[1], [2]]⟩] .expectHost =
      loadAux (fun _ => true) (fun cs => cs.map Char.toNat) 0 []
        [⟨"h1".data, 0, 50, false, [[1], [2]]⟩] .expectHost ∧
    loadAux (fun _ => true) (fun cs => cs.map Char.toNat) 0 []
        [⟨"h1".data, 0, 50, false, [[1], [2]]⟩] .expectHost =
      (.OK, [⟨"h1".data, 0, 50, false, [[1], [2]]⟩]) := by
  constructor
  · exact (c3_recoverable_record_outcomes (fun _ => true) (fun cs => cs.map Char.toNat) 0
      ["h1\t5\t100\t0\t2".data, "sha-256\tAB".data, "sha-256\tCD".data]
      [⟨"h1".data, 0, 50, false, [[1], [2]]⟩]
      ⟨"h1".data, 5, 100, false, [[65, 66], [67, 68]]⟩ []).1
      (by decide) (Or.inr (Or.inr (by decide)))
  · exact (c3_recoverable_record_outcomes (fun _ => true) (fun cs => cs.map Char.toNat) 0
      [] [⟨"h1".data, 0, 50, false, [[1], [2]]⟩]
      ⟨"h1".data, 5, 100, false, [[65, 66], [67, 68]]⟩ []).2 (by decide)

/-- Claim C5: for a non-expired candidate whose host already has a
resident entry, exclusive admission returns `ENTRY_EXISTS` and leaves
the store unchanged; consequently, during load a second record for an
already-resident host is discarded and the loop continues with the
store unchanged (first occurrence wins). -/
theorem c5_exclusive_first_wins (vh : List Char → Bool) (dec : List Char → Pin)
    (now : Int) (db : wget_hpkp_db_t) (hn e : wget_hpkp_t) (ls : List (List Char))
    (cand : wget_hpkp_t) (rest : List (List Char)) :
    (hpkp_db_get db hn.host = some e →
      ¬(0 < hn.max_age ∧ hn.created + hn.max_age < now) →
      __wget_hpkp_db_add db hn true now = (.ENTRY_EXISTS, db)) ∧
    (nextRecord vh dec ls = .record cand rest →
      hpkp_db_get db cand.host = some e →
      ¬(0 < cand.max_age ∧ cand.created + cand.max_age < now) →
      loadAux vh dec now ls db .expectHost = loadAux vh dec now rest db .expectHost) := by
  have hfirst : ∀ hn0 : wget_hpkp_t, hpkp_db_get db hn0.host = some e →
      ¬(0 < hn0.max_age ∧ hn0.created + hn0.max_age < now) →
      __wget_hpkp_db_add db hn0 true now = (.ENTRY_EXISTS, db) := by
    intro hn0 hget hnx
    simp only [__wget_hpkp_db_add]
    rw [if_neg hnx]
    simp only [hget]
    rw [if_pos trivial]
  refine ⟨hfirst hn, fun hrec hget hnx => ?_⟩
  have hs := (loadAux_record vh dec now ls db).2.2 cand rest hrec
  rw [hs, hfirst cand hget hnx]

theorem c5_exclusive_first_wins_witness :
    __wget_hpkp_db_add [⟨"h1".data, 0, 50, false, [[1], [2]]⟩]
        ⟨"h1".data, 5, 100, true, [[3], [4]]⟩ true 0 =
      (.ENTRY_EXISTS, [⟨"h1".data, 0, 50, false, [[1], [2]]⟩]) ∧
    loadAux (fun _ => true) (fun cs => cs.map Char.toNat) 0
        ["h1\t9\t999\t1\t2".data, "sha-256\tEF".data, "sha-256\tGH".data, "tail".data]
        [⟨"h1".data, 0, 50, false, [[1], [2]]⟩] .expectHost =
      loadAux (fun _ => true) (fun cs => cs.map Char.toNat) 0 ["tail".data]
        [⟨"h1".data, 0, 50, false, [[1], [2]]⟩] .expectHost := by
  constructor
  · exact (c5_exclusive_first_wins (fun _ => true) (fun cs => cs.map Char.toNat) 0
      [⟨"h1".data, 0, 50, false, [[1], [2]]⟩] ⟨"h1".data, 5, 100, true, [[3], [4]]⟩
      ⟨"h1".data, 0, 50, false, [[1], [2]]⟩ [] ⟨"h1".data, 5, 100, true, [[3], [4]]⟩ []).1
      (by decide) (by decide)
  · exact (c5_exclusive_first_wins (fun _ => true) (fun cs => cs.map Char.toNat) 0
      [⟨"h1".data, 0, 50, false, [[1], [2]]⟩] ⟨"h1".data, 5, 100, true, [[3], [4]]⟩
      ⟨"h1".data, 0, 50, false, [[1], [2]]⟩
      ["h1\t9\t999\t1\t2".data, "sha-256\tEF".data, "sha-256\tGH".data, "tail".data]
      ⟨"h1".data, 9, 999, true, [[69, 70], [71, 72]]⟩ ["tail".data]).2
      (by decide) (by decide) (by decide)

/-- Claim C9: load is not atomic on format errors: if the first `k`
records of the file body are well-formed and pass through (exclusive)
admission, and the next record is syntactically malformed, the load call
reports `ERROR` while the store retains exactly the state built from
the first `k` records. -/
theorem c9_load_not_atomic (vh : List Char → Bool) (dec : List Char → Pin) (now : Int)
    (k : Nat) (body : List (List Char)) (db0 dbk : wget_hpkp_db_t)
    (rest : List (List Char))
    (hk : processRecords vh dec now k body db0 = some (dbk, rest))
    (hbad : nextRecord vh dec rest = .bad) :
    wget_hpkp_db_load vh dec now true true (versionLine :: body) db0 = (.ERROR, dbk) := by
  have h1 := processRecords_loadAux vh dec now k body db0 dbk rest hk
  have h2 := (loadAux_record vh dec now rest dbk).2.1 hbad
  have hcv : isComment versionLine = false := by decide
  have hv : wget_hpkp_db_load vh dec now true true (versionLine :: body) db0 =
      loadAux vh dec now body db0 .expectHost := by
    simp [wget_hpkp_db_load, loadAux, hcv]
  rw [hv, h1, h2]

theorem c9_load_not_atomic_witness :
    wget_hpkp_db_load (fun _ => true) (fun cs => cs.map Char.toNat) 0 true true
        (versionLine ::
          ["h1\t5\t100\t0\t2".data, "sha-256\tAB".data, "sha-256\tCD".data, "bad".data])
        [] =
      (.ERROR, [⟨"h1".data, 5, 100, false, [[65, 66], [67, 68]]⟩]) := by
  exact c9_load_not_atomic (fun _ => true) (fun cs => cs.map Char.toNat) 0 1
    ["h1\t5\t100\t0\t2".data, "sha-256\tAB".data, "sha-256\tCD".data, "bad".data]
    [] [⟨"h1".data, 5, 100, false, [[65, 66], [67, 68]]⟩] ["bad".data]
    (by decide) (by decide)

/-! ### The serializer (hpkp.c:358-484) -/

/-- Classification of an existing target path by `stat(2)`
(hpkp.c:443-447). -/
inductive FileKind where
  | regular
  | symlink
  | other
deriving DecidableEq, Repr

/-- The `int` return of `wget_hpkp_db_save`: a written-pin count, or
one of the negative error codes. -/
inductive SaveRet where
  | count (n : Nat)
  | ERROR
  | ERROR_FILE_OPEN
deriving DecidableEq, Repr

/-- Observable effect of a save call: its return value, the lines
written to the file (`none` when no file was written), and whether the
target (or its symlink referent) was unlinked. -/
structure SaveOutcome where
  retval : SaveRet
  written : Option (List (List Char))
  unlinked : Bool
deriving DecidableEq, Repr

def digitChar : Nat → Char
  | 0 => '0'
  | 1 => '1'
  | 2 => '2'
  | 3 => '3'
  | 4 => '4'
  | 5 => '5'
  | 6 => '6'
  | 7 => '7'
  | 8 => '8'
  | _ => '9'

def natDigitsAux : Nat → Nat → List Char
  | 0, _ => []
  | fuel + 1, n =>
    if n < 10 then [digitChar n]
    else natDigitsAux fuel (n / 10) ++ [digitChar (n % 10)]

/-- Decimal digits of `n`, most significant first: what `%lu`/`%u`
print for an unsigned value. -/
def natDigits (n : Nat) : List Char := natDigitsAux (n + 1) n

/-- The value `%lu` prints for a `time_t` on a 64-bit platform. -/
def luOf (t : Int) : Nat := (t % 18446744073709551616).toNat

/-- The record line written at hpkp.c:392-396:
host TAB created TAB max_age TAB include_subdomains TAB num_pins. -/
def hostLine (e : wget_hpkp_t) : List Char :=
  e.host ++ '\t' :: (natDigits (luOf e.created) ++ '\t' ::
    (natDigits (luOf e.max_age) ++ '\t' ::
      ((if e.include_subdomains then '1' else '0') :: '\t' ::
        natDigits e.pins.length)))

/-- The pin line written by `__vector_browse_cb` (hpkp.c:358-372):
`sha-256` TAB base64 of the pin.  `enc` models
`wget_base64_encode_alloc` (repository code outside this module). -/
def pinLine (enc : Pin → List Char) (p : Pin) : List Char :=
  "sha-256".data ++ '\t' :: enc p

/-- Models the `wget_hashmap_browse` traversal with
`__hashtable_browse_cb` (hpkp.c:379-407): the lines appended to the
file and the total pin count.  An entry with an empty pin vector makes
the callback return -1, which stops the traversal (lines and count
written so far stand). -/
def browseEntries (enc : Pin → List Char) : wget_hpkp_db_t → List (List Char) × Nat
  | [] => ([], 0)
  | e :: rest =>
    if 0 < e.pins.length then
      let pr := browseEntries enc rest
      (hostLine e :: (e.pins.map (fun p => pinLine enc p) ++ pr.1),
        e.pins.length + pr.2)
    else ([], 0)

/-- The three comment lines and the version line written at
hpkp.c:469-474. -/
def headerLines : List (List Char) :=
  ["# HTTP Public Key Pinning database (RFC 7469)".data,
   "# Generated by wget2".data,
   "# MODIFY AT YOUR OWN RISK".data,
   versionLine]

/-- Models `wget_hpkp_db_save` (hpkp.c:430-484).  `argsNull` models the
null/empty-argument test at hpkp.c:437 (generic `WGET_HPKP_ERROR`);
`stat` is the `stat(2)` result on the target path (`none` when the path
does not exist); `openOk` models `fopen(.., "w")` succeeding.  When the
target exists but is neither a regular file nor a symlink the function
jumps to `end` and returns `bctx.written_pins`, which is still 0. -/
def wget_hpkp_db_save (enc : Pin → List Char) (argsNull : Bool)
    (stat : Option FileKind) (openOk : Bool) (db : wget_hpkp_db_t) : SaveOutcome :=
  if argsNull then ⟨.ERROR, none, false⟩
  else if stat = some .other then ⟨.count 0, none, false⟩
  else if db.length = 0 then ⟨.count 0, none, stat.isSome⟩
  else if !openOk then ⟨.ERROR_FILE_OPEN, none, false⟩
  else
    let pr := browseEntries enc db
    ⟨.count pr.2, some (headerLines ++ pr.1), false⟩

/-- Claim C7, counterexample: saving a two-pin store to a target that
exists but is neither a regular file nor a symbolic link returns the
written-pin count 0 — a value in the range of ordinary pin counts — and
NOT a generic error distinct from pin counts (`SaveRet.ERROR`) as the
claim states. -/
theorem c7_counterexample :
    wget_hpkp_db_save (fun _ => []) false (some .other) true
        [⟨"h1".data, 0, 100, false, [[1], [2]]⟩] =
      ⟨.count 0, none, false⟩ ∧
    SaveRet.count 0 ≠ SaveRet.ERROR ∧ SaveRet.count 0 ≠ SaveRet.ERROR_FILE_OPEN := by
  exact ⟨rfl, by decide, by decide⟩

/-- Claim C7, amended: when the target path exists but is neither a
regular file nor a symbolic link, save returns 0 — the written-pin
counter, indistinguishable from a successful save of a pinless store —
and writes and deletes nothing. -/
theorem c7_target_not_regular (enc : Pin → List Char) (stat : Option FileKind)
    (openOk : Bool) (db : wget_hpkp_db_t) (hstat : stat = some .other) :
    wget_hpkp_db_save enc false stat openOk db = ⟨.count 0, none, false⟩ := by
  simp [wget_hpkp_db_save, hstat]

theorem c7_target_not_regular_witness :
    wget_hpkp_db_save (fun p => p.map (fun b => Char.ofNat (b + 65))) false
        (some .other) true [⟨"h2".data, 3, 7, true, [[5], [6]]⟩] =
      ⟨.count 0, none, false⟩ :=
  c7_target_not_regular (fun p => p.map (fun b => Char.ofNat (b + 65)))
    (some .other) true [⟨"h2".data, 3, 7, true, [[5], [6]]⟩] rfl

/-! ### Printing/parsing round-trip facts -/

lemma digitChar_isDigit (m : Nat) (hm : m < 10) : (digitChar m).isDigit = true := by
  interval_cases m <;> decide

lemma digitChar_ne_zero (m : Nat) (hm0 : 0 < m) (hm : m < 10) : digitChar m ≠ '0' := by
  interval_cases m <;> decide

lemma digitChar_val (m : Nat) (hm : m < 10) : (digitChar m).toNat - 48 = m := by
  interval_cases m <;> decide

lemma natDigitsAux_ne_nil (fuel n : Nat) (h : n < fuel) : natDigitsAux fuel n ≠ [] := by
  cases fuel with
  | zero => omega
  | succ fuel =>
    simp only [natDigitsAux]
    split
    · simp
    · simp

lemma natDigitsAux_digits (fuel : Nat) :
    ∀ n, n < fuel → ∀ c ∈ natDigitsAux fuel n, c.isDigit = true := by
  induction fuel with
  | zero => intro n h; omega
  | succ fuel ih =>
    intro n h c hc
    simp only [natDigitsAux] at hc
    split at hc
    · rename_i h10
      simp only [List.mem_singleton] at hc
      subst hc
      exact digitChar_isDigit n h10
    · rename_i h10
      rw [List.mem_append] at hc
      rcases hc with hc | hc
      · exact ih (n / 10) (by omega) c hc
      · simp only [List.mem_singleton] at hc
        subst hc
        exact digitChar_isDigit (n % 10) (by omega)

lemma natDigitsAux_head_ne_zero (fuel : Nat) :
    ∀ n, n < fuel → 0 < n → ∀ c, (natDigitsAux fuel n).head? = some c → c ≠ '0' := by
  induction fuel with
  | zero => intro n h; omega
  | succ fuel ih =>
    intro n h hn c hc
    simp only [natDigitsAux] at hc
    split at hc
    · rename_i h10
      simp only [List.head?_cons, Option.some.injEq] at hc
      subst hc
      exact digitChar_ne_zero n hn h10
    · rename_i h10
      obtain ⟨d, ds, hds⟩ :=
        List.exists_cons_of_ne_nil (natDigitsAux_ne_nil fuel (n / 10) (by omega))
      rw [hds] at hc
      simp only [List.cons_append, List.head?_cons, Option.some.injEq] at hc
      subst hc
      exact ih (n / 10) (by omega) (by omega) d (by rw [hds]; rfl)

lemma digitsToNat_append_one (xs : List Char) (c : Char) :
    digitsToNat (xs ++ [c]) = digitsToNat xs * 10 + (c.toNat - 48) := by
  unfold digitsToNat
  rw [List.foldl_append]
  rfl

lemma natDigitsAux_val (fuel : Nat) :
    ∀ n, n < fuel → digitsToNat (natDigitsAux fuel n) = n := by
  induction fuel with
  | zero => intro n h; omega
  | succ fuel ih =>
    intro n h
    simp only [natDigitsAux]
    split
    · rename_i h10
      show 0 * 10 + ((digitChar n).toNat - 48) = n
      rw [Nat.zero_mul, Nat.zero_add]
      exact digitChar_val n h10
    · rename_i h10
      rw [digitsToNat_append_one, ih (n / 10) (by omega), digitChar_val (n % 10) (by omega)]
      omega

lemma natDigits_ne_nil (n : Nat) : natDigits n ≠ [] :=
  natDigitsAux_ne_nil (n + 1) n (by omega)

lemma natDigits_digits (n : Nat) : ∀ c ∈ natDigits n, c.isDigit = true :=
  natDigitsAux_digits (n + 1) n (by omega)

lemma natDigits_val (n : Nat) : digitsToNat (natDigits n) = n :=
  natDigitsAux_val (n + 1) n (by omega)

lemma natDigits_head_ne_zero (n : Nat) (hn : 0 < n) :
    ∀ c, (natDigits n).head? = some c → c ≠ '0' :=
  natDigitsAux_head_ne_zero (n + 1) n (by omega) hn

lemma natDigits_notWS (n : Nat) : ∀ c ∈ natDigits n, isWS c = false := by
  intro c hc
  have hd := natDigits_digits n c hc
  have : c ≠ ' ' ∧ c ≠ '\t' := by
    constructor <;> rintro rfl <;> simp at hd
  simp [isWS, this.1, this.2]

lemma scanDigits_append_stop (ds : List Char) (c : Char) (rest : List Char)
    (hd : ∀ x ∈ ds, x.isDigit = true) (hc1 : c.isDigit = false) (hc2 : isWS c = true) :
    scanDigits (ds ++ c :: rest) = some (ds, c :: rest) := by
  induction ds with
  | nil => simp [scanDigits, hc1, hc2]
  | cons d ds ih =>
    have hdd : d.isDigit = true := hd d (by simp)
    rw [List.cons_append]
    simp only [scanDigits, hdd, if_pos]
    rw [ih (fun x hx => hd x (by simp [hx]))]

lemma scanDigits_all (ds : List Char) (hd : ∀ x ∈ ds, x.isDigit = true) :
    scanDigits ds = some (ds, []) := by
  induction ds with
  | nil => rfl
  | cons d ds ih =>
    have hdd : d.isDigit = true := hd d (by simp)
    simp only [scanDigits, hdd, if_pos]
    rw [ih (fun x hx => hd x (by simp [hx]))]

lemma natDigits_no_leading_zero (m : Nat) :
    ¬((natDigits m).head? = some '0' ∧ 1 < (natDigits m).length) := by
  rintro ⟨h0, hlen⟩
  rcases Nat.eq_zero_or_pos m with rfl | hm0
  · simp [natDigits, natDigitsAux] at hlen
  · exact absurd rfl (natDigits_head_ne_zero m hm0 '0' h0)

lemma parse_number_natDigits_tab (m : Nat) (hm : m ≤ ULONG_MAX) (rest : List Char) :
    __parse_number_unsigned (natDigits m ++ '\t' :: rest) = some (m, '\t' :: rest) := by
  simp only [__parse_number_unsigned,
    scanDigits_append_stop (natDigits m) '\t' rest (natDigits_digits m)
      (by decide) (by decide)]
  rw [if_neg (by simpa using natDigits_ne_nil m)]
  rw [if_neg (natDigits_no_leading_zero m)]
  rw [natDigits_val m, Nat.min_eq_left hm]

lemma parse_number_natDigits_end (m : Nat) (hm : m ≤ ULONG_MAX) :
    __parse_number_unsigned (natDigits m) = some (m, []) := by
  simp only [__parse_number_unsigned, scanDigits_all (natDigits m) (natDigits_digits m)]
  rw [if_neg (by simpa using natDigits_ne_nil m)]
  rw [if_neg (natDigits_no_leading_zero m)]
  rw [natDigits_val m, Nat.min_eq_left hm]

lemma luOf_le (t : Int) : luOf t ≤ ULONG_MAX := by
  unfold luOf ULONG_MAX
  have h1 : t % 18446744073709551616 < 18446744073709551616 :=
    Int.emod_lt_of_pos t (by decide)
  omega

lemma luOf_nonneg_id (t : Int) (h0 : 0 ≤ t) (h1 : t < 9223372036854775808) :
    luOf t = t.toNat := by
  unfold luOf
  rw [Int.emod_eq_of_lt h0 (by omega)]

lemma intOfUL_luOf (t : Int) (h0 : 0 ≤ t) (h1 : t < 9223372036854775808) :
    intOfUL (luOf t) = t := by
  rw [luOf_nonneg_id t h0 h1]
  unfold intOfUL
  rw [if_pos (by omega)]
  omega

/-! ### Tokenization of the saved lines -/

lemma takeWhile_append_stop (p : Char → Bool) (xs : List Char) (c : Char) (ys : List Char)
    (hxs : ∀ x ∈ xs, p x = true) (hc : p c = false) :
    ((xs ++ c :: ys).takeWhile p) = xs := by
  induction xs with
  | nil => simp [List.takeWhile_cons, hc]
  | cons x xs ih =>
    simp only [List.cons_append, List.takeWhile_cons, hxs x (by simp), if_pos]
    rw [ih (fun y hy => hxs y (by simp [hy]))]

lemma takeWhile_all_true (p : Char → Bool) (xs : List Char)
    (hxs : ∀ x ∈ xs, p x = true) : xs.takeWhile p = xs := by
  induction xs with
  | nil => rfl
  | cons x xs ih =>
    simp only [List.takeWhile_cons, hxs x (by simp), if_pos]
    rw [ih (fun y hy => hxs y (by simp [hy]))]

lemma dropWhile_cons_false (p : Char → Bool) (c : Char) (cs : List Char)
    (hc : p c = false) : (c :: cs).dropWhile p = c :: cs := by
  simp [List.dropWhile_cons, hc]

lemma head_append_of_ne_nil {α : Type} (xs ys : List α) (h : xs ≠ []) :
    (xs ++ ys).head? = xs.head? := by
  cases xs with
  | nil => exact absurd rfl h
  | cons x xs => rfl

lemma parse_hostname_spec (host : List Char) (rest : List Char)
    (hne : host ≠ []) (hws : ∀ c ∈ host, isWS c = false) :
    __parse_hostname (host ++ '\t' :: rest) = some (host, '\t' :: rest) := by
  obtain ⟨c, host', rfl⟩ := List.exists_cons_of_ne_nil hne
  have hc : isWS c = false := hws c (by simp)
  have hnw : ∀ x ∈ c :: host', notWS x = true := by
    intro x hx
    simp [notWS, hws x hx]
  simp only [__parse_hostname, List.cons_append]
  rw [dropWhile_cons_false isWS c (host' ++ '\t' :: rest) hc]
  rw [show (c :: (host' ++ '\t' :: rest)) = ((c :: host') ++ '\t' :: rest) by simp]
  rw [takeWhile_append_stop notWS (c :: host') '\t' rest hnw (by decide)]
  rw [if_neg (by simp)]
  rw [show ((c :: host') ++ '\t' :: rest).drop (c :: host').length = '\t' :: rest from
    List.drop_left (c :: host') ('\t' :: rest)]
  simp [show isWS '\t' = true from by decide]

lemma next_token_tab (z : List Char) (hz : z ≠ [])
    (hh : ∀ c, z.head? = some c → isWS c = false) :
    __next_token ('\t' :: z) = some z := by
  obtain ⟨c, z', rfl⟩ := List.exists_cons_of_ne_nil hz
  have hc : isWS c = false := hh c rfl
  have hd : List.dropWhile isWS ('\t' :: c :: z') = c :: z' := by
    rw [List.dropWhile_cons, if_pos (by decide)]
    exact dropWhile_cons_false isWS c z' hc
  simp only [__next_token, hd]
  simp

lemma natDigits_head_notWS (n : Nat) :
    ∀ c, (natDigits n).head? = some c → isWS c = false := by
  intro c hc
  exact natDigits_notWS n c (List.mem_of_mem_head? hc)

lemma parse_host_line_parts (vh : List Char → Bool) (h : List Char) (a b p : Nat) (d : Char)
    (hne : h ≠ []) (hws : ∀ c ∈ h, isWS c = false) (hvh : vh h = true)
    (ha : a ≤ ULONG_MAX) (hb : b ≤ ULONG_MAX) (hpU : p ≤ ULONG_MAX)
    (hd : d.isDigit = true) (hd1 : d.toNat - 48 ≤ 1) (hp : 0 < p) :
    __wget_hpkp_parse_host_line vh
      (h ++ '\t' :: (natDigits a ++ '\t' ::
        (natDigits b ++ '\t' :: (d :: '\t' :: natDigits p)))) =
      some (h, intOfUL a, intOfUL b, (d.toNat - 48) == 1, p) := by
  have hA := natDigits_ne_nil a
  have hB := natDigits_ne_nil b
  have hC := natDigits_ne_nil p
  have hdws : isWS d = false := by
    have : d ≠ ' ' ∧ d ≠ '\t' := by
      constructor <;> rintro rfl <;> simp at hd
    simp [isWS, this.1, this.2]
  simp only [__wget_hpkp_parse_host_line]
  rw [parse_hostname_spec h _ hne hws]
  simp only [hvh, eq_self_iff_true, if_true]
  simp only [next_token_tab
    (natDigits a ++ '\t' :: (natDigits b ++ '\t' :: d :: '\t' :: natDigits p))
    (by simp [hA])
    (by
      intro c hc
      rw [head_append_of_ne_nil _ _ hA] at hc
      exact natDigits_head_notWS a c hc)]
  simp only [parse_number_natDigits_tab a ha
    (natDigits b ++ '\t' :: d :: '\t' :: natDigits p)]
  simp only [next_token_tab (natDigits b ++ '\t' :: d :: '\t' :: natDigits p)
    (by simp [hB])
    (by
      intro c hc
      rw [head_append_of_ne_nil _ _ hB] at hc
      exact natDigits_head_notWS b c hc)]
  simp only [parse_number_natDigits_tab b hb (d :: '\t' :: natDigits p)]
  simp only [next_token_tab (d :: '\t' :: natDigits p) (by simp)
    (by
      intro c hc
      simp only [List.head?_cons, Option.some.injEq] at hc
      subst hc
      exact hdws)]
  simp only [__parse_digit, hd, eq_self_iff_true, if_true]
  rw [if_neg (by omega)]
  simp only [next_token_tab (natDigits p) hC (natDigits_head_notWS p)]
  simp only [parse_number_natDigits_end p hpU]
  rw [if_pos hp]

lemma parse_host_line_spec (vh : List Char → Bool) (e : wget_hpkp_t)
    (hne : e.host ≠ []) (hws : ∀ c ∈ e.host, isWS c = false) (hvh : vh e.host = true)
    (hc0 : 0 ≤ e.created) (hc1 : e.created < 9223372036854775808)
    (hm0 : 0 ≤ e.max_age) (hm1 : e.max_age < 9223372036854775808)
    (hp : 0 < e.pins.length) (hplt : e.pins.length ≤ ULONG_MAX) :
    __wget_hpkp_parse_host_line vh (hostLine e) =
      some (e.host, e.created, e.max_age, e.include_subdomains, e.pins.length) := by
  cases he : e.include_subdomains with
  | false =>
    have hline : hostLine e = e.host ++ '\t' :: (natDigits (luOf e.created) ++ '\t' ::
        (natDigits (luOf e.max_age) ++ '\t' :: ('0' :: '\t' :: natDigits e.pins.length))) := by
      simp [hostLine, he]
    rw [hline]
    rw [parse_host_line_parts vh e.host (luOf e.created) (luOf e.max_age) e.pins.length '0'
      hne hws hvh (luOf_le _) (luOf_le _) hplt (by decide) (by decide) hp]
    rw [intOfUL_luOf e.created hc0 hc1, intOfUL_luOf e.max_age hm0 hm1]
    rfl
  | true =>
    have hline : hostLine e = e.host ++ '\t' :: (natDigits (luOf e.created) ++ '\t' ::
        (natDigits (luOf e.max_age) ++ '\t' :: ('1' :: '\t' :: natDigits e.pins.length))) := by
      simp [hostLine, he]
    rw [hline]
    rw [parse_host_line_parts vh e.host (luOf e.created) (luOf e.max_age) e.pins.length '1'
      hne hws hvh (luOf_le _) (luOf_le _) hplt (by decide) (by decide) hp]
    rw [intOfUL_luOf e.created hc0 hc1, intOfUL_luOf e.max_age hm0 hm1]
    rfl

lemma parse_pin_line_spec (enc : Pin → List Char) (p : Pin)
    (hne : enc p ≠ []) (hws : ∀ c ∈ enc p, isWS c = false) :
    __wget_hpkp_parse_pin_line (pinLine enc p) = some (enc p) := by
  obtain ⟨c, cs, hcs⟩ := List.exists_cons_of_ne_nil hne
  have hs : ("sha-256".data : List Char) = ['s', 'h', 'a', '-', '2', '5', '6'] := rfl
  have h1 : List.dropWhile isWS ("sha-256".data ++ '\t' :: enc p) =
      "sha-256".data ++ '\t' :: enc p := by
    rw [hs]
    simp only [List.cons_append]
    exact dropWhile_cons_false isWS 's' _ (by decide)
  have h2 : List.takeWhile notWS ("sha-256".data ++ '\t' :: enc p) = "sha-256".data := by
    rw [hs]
    exact takeWhile_append_stop notWS _ '\t' (enc p) (by decide) (by decide)
  have h3 : ("sha-256".data ++ '\t' :: enc p).drop ("sha-256".data).length =
      '\t' :: enc p := List.drop_left _ _
  have h4 : List.dropWhile isWS ('\t' :: enc p) = enc p := by
    rw [List.dropWhile_cons, if_pos (by decide), hcs]
    exact dropWhile_cons_false isWS c cs (hws c (by rw [hcs]; simp))
  have h5 : List.takeWhile notWS (enc p) = enc p :=
    takeWhile_all_true notWS (enc p) (fun x hx => by simp [notWS, hws x hx])
  simp only [__wget_hpkp_parse_pin_line, pinLine, h1, h2, h3, h4, h5]
  rw [if_neg (by decide)]
  rw [if_neg (by rw [hcs]; simp)]
  simp

lemma cmp_pins_eq_iff (a b : Pin) (ha : a.length = 32) (hb : b.length = 32) :
    cmp_pins_eq a b = true ↔ a = b := by
  unfold cmp_pins_eq
  rw [List.all_eq_true]
  constructor
  · intro hall
    apply List.ext_getElem (by omega)
    intro i h1 h2
    have hi := hall i (by rw [List.mem_range]; omega)
    rw [beq_iff_eq] at hi
    have e1 : a.getD i 0 = a[i] := by
      rw [List.getD_eq_getElem?_getD, List.getElem?_eq_getElem h1]
      rfl
    have e2 : b.getD i 0 = b[i] := by
      rw [List.getD_eq_getElem?_getD, List.getElem?_eq_getElem h2]
      rfl
    rw [e1, e2] at hi
    exact hi
  · rintro rfl
    intro i _
    simp

lemma pins_contains_single_ne (q p : Pin) (hq : q.length = 32) (hp : p.length = 32)
    (hne : q ≠ p) : pins_contains [q] p = false := by
  have hc : cmp_pins_eq q p = false := by
    cases hcc : cmp_pins_eq q p
    · rfl
    · exact absurd ((cmp_pins_eq_iff q p hq hp).mp hcc) hne
  simp [pins_contains, hc]

lemma put_b64_new (dec : List Char → Pin) (h : List Char) (c m : Int) (s : Bool)
    (b : List Char) :
    __wget_hpkp_db_put_base64_spki dec (wget_hpkp_new h c m s) b =
      ⟨h, c, m, s, [dec b]⟩ := by
  simp [__wget_hpkp_db_put_base64_spki, wget_hpkp_new, pins_contains]

lemma put_b64_second (dec : List Char → Pin) (h : List Char) (c m : Int) (s : Bool)
    (q : Pin) (b : List Char) (hq : q.length = 32) (hd : (dec b).length = 32)
    (hne : q ≠ dec b) :
    __wget_hpkp_db_put_base64_spki dec ⟨h, c, m, s, [q]⟩ b = ⟨h, c, m, s, [q, dec b]⟩ := by
  simp [__wget_hpkp_db_put_base64_spki, pins_contains_single_ne q (dec b) hq hd hne]

lemma add_fresh_ok (db : wget_hpkp_db_t) (cand : wget_hpkp_t) (now : Int)
    (hget : hpkp_db_get db cand.host = none)
    (hma : cand.max_age ≠ 0) (hp : 2 ≤ cand.pins.length)
    (hnx : ¬(0 < cand.max_age ∧ cand.created + cand.max_age < now)) :
    __wget_hpkp_db_add db cand true now = (.OK, db ++ [cand]) := by
  unfold hpkp_db_get at hget
  simp only [__wget_hpkp_db_add]
  rw [if_neg hnx]
  simp only [hpkp_db_get, hget]
  rw [if_pos ⟨hma, hp⟩]
  have hput : hpkp_db_put db cand = db ++ [cand] := by
    unfold hpkp_db_put
    rw [if_neg (by
      rw [List.any_eq_true]
      rintro ⟨x, hx, hpx⟩
      exact (List.find?_eq_none.mp hget x hx) hpx)]
  rw [hput]

/-! ### Single steps of the load loop on explicit lines -/

lemma loadAux_version_comment {vh : List Char → Bool} {dec : List Char → Pin} {now : Int}
    (l : List Char) (ls : List (List Char)) (db : wget_hpkp_db_t)
    (hc : isComment l = true) :
    loadAux vh dec now (l :: ls) db .expectVersion =
      loadAux vh dec now ls db .expectVersion := by
  simp [loadAux, hc]

lemma loadAux_version_accept {vh : List Char → Bool} {dec : List Char → Pin} {now : Int}
    (ls : List (List Char)) (db : wget_hpkp_db_t) :
    loadAux vh dec now (versionLine :: ls) db .expectVersion =
      loadAux vh dec now ls db .expectHost := by
  simp [loadAux, show isComment versionLine = false from by decide]

lemma loadAux_host_step {vh : List Char → Bool} {dec : List Char → Pin} {now : Int}
    (l : List Char) (ls : List (List Char)) (db : wget_hpkp_db_t)
    (host : List Char) (created max_age : Int) (isd : Bool) (np : Nat)
    (hc : isComment l = false)
    (hp : __wget_hpkp_parse_host_line vh l = some (host, created, max_age, isd, np)) :
    loadAux vh dec now (l :: ls) db .expectHost =
      loadAux vh dec now ls db
        (.expectPins (wget_hpkp_new host created max_age isd) np) := by
  simp [loadAux, hc, hp]

lemma loadAux_pin_two {vh : List Char → Bool} {dec : List Char → Pin} {now : Int}
    (l : List Char) (ls : List (List Char)) (db : wget_hpkp_db_t)
    (cand : wget_hpkp_t) (b64 : List Char)
    (hp : __wget_hpkp_parse_pin_line l = some b64) :
    loadAux vh dec now (l :: ls) db (.expectPins cand 2) =
      loadAux vh dec now ls db
        (.expectPins (__wget_hpkp_db_put_base64_spki dec cand b64) 1) := by
  simp [loadAux, hp]

lemma loadAux_pin_last {vh : List Char → Bool} {dec : List Char → Pin} {now : Int}
    (l : List Char) (ls : List (List Char)) (db : wget_hpkp_db_t)
    (cand : wget_hpkp_t) (b64 : List Char)
    (hp : __wget_hpkp_parse_pin_line l = some b64) :
    loadAux vh dec now (l :: ls) db (.expectPins cand 1) =
      loadAux vh dec now ls
        (__wget_hpkp_db_add db (__wget_hpkp_db_put_base64_spki dec cand b64) true now).2
        .expectHost := by
  simp [loadAux, hp]

lemma isComment_hostLine (e : wget_hpkp_t) (hne : e.host ≠ [])
    (hh : ∀ c, e.host.head? = some c → c ≠ '#') : isComment (hostLine e) = false := by
  obtain ⟨c, t, hct⟩ := List.exists_cons_of_ne_nil hne
  have hcne : c ≠ '#' := hh c (by rw [hct]; rfl)
  unfold hostLine isComment
  rw [hct]
  simp [beq_eq_false_iff_ne, hcne]

/-- Claim C2: persistence round-trip.  A store with exactly the two
entries `⟨h1, c1, m1, s1, {A,B}⟩` and `⟨h2, c2, m2, s2, {C,D}⟩`
(distinct 32-byte pins, positive `max_age`, representable timestamps,
well-formed non-IP hostnames, entries not expired at load time) saves
with a reported pin count of 4, and loading the written lines into a
fresh store succeeds with `OK` and yields both entries with the same
`created`, `max_age`, `include_subdomains` and byte-identical pin sets.
`enc`/`dec` are the external base64 codec (hypotheses state its
round-trip contract on the four pins), `vh` the external IRI host
check. -/
theorem c2_save_load_roundtrip
    (enc : Pin → List Char) (dec : List Char → Pin) (vh : List Char → Bool)
    (stat : Option FileKind) (now : Int)
    (h1 h2 : List Char) (A B C D : Pin) (c1 m1 c2 m2 : Int) (s1 s2 : Bool)
    (hh1 : h1 ≠ []) (hh2 : h2 ≠ [])
    (hw1 : ∀ c ∈ h1, isWS c = false) (hw2 : ∀ c ∈ h2, isWS c = false)
    (hcm1 : ∀ c, h1.head? = some c → c ≠ '#') (hcm2 : ∀ c, h2.head? = some c → c ≠ '#')
    (hv1 : vh h1 = true) (hv2 : vh h2 = true)
    (h12 : h1 ≠ h2)
    (hA : A.length = 32) (hB : B.length = 32) (hC : C.length = 32) (hD : D.length = 32)
    (hAB : A ≠ B) (hCD : C ≠ D) (hAC : A ≠ C) (hAD : A ≠ D) (hBC : B ≠ C) (hBD : B ≠ D)
    (hdA : dec (enc A) = A) (hdB : dec (enc B) = B)
    (hdC : dec (enc C) = C) (hdD : dec (enc D) = D)
    (heA : enc A ≠ []) (heB : enc B ≠ []) (heC : enc C ≠ []) (heD : enc D ≠ [])
    (hwA : ∀ c ∈ enc A, isWS c = false) (hwB : ∀ c ∈ enc B, isWS c = false)
    (hwC : ∀ c ∈ enc C, isWS c = false) (hwD : ∀ c ∈ enc D, isWS c = false)
    (hc10 : 0 ≤ c1) (hc11 : c1 < 9223372036854775808)
    (hm10 : 0 < m1) (hm11 : m1 < 9223372036854775808)
    (hc20 : 0 ≤ c2) (hc21 : c2 < 9223372036854775808)
    (hm20 : 0 < m2) (hm21 : m2 < 9223372036854775808)
    (hnx1 : ¬(c1 + m1 < now)) (hnx2 : ¬(c2 + m2 < now))
    (hstat : ¬(stat = some FileKind.other)) :
    (wget_hpkp_db_save enc false stat true
        [⟨h1, c1, m1, s1, [A, B]⟩, ⟨h2, c2, m2, s2, [C, D]⟩]).retval = .count 4 ∧
    ∃ lines,
      (wget_hpkp_db_save enc false stat true
          [⟨h1, c1, m1, s1, [A, B]⟩, ⟨h2, c2, m2, s2, [C, D]⟩]).written = some lines ∧
      wget_hpkp_db_load vh dec now true true lines [] =
        (.OK, [⟨h1, c1, m1, s1, [A, B]⟩, ⟨h2, c2, m2, s2, [C, D]⟩]) ∧
      hpkp_db_get (wget_hpkp_db_load vh dec now true true lines []).2 h1 =
        some ⟨h1, c1, m1, s1, [A, B]⟩ ∧
      hpkp_db_get (wget_hpkp_db_load vh dec now true true lines []).2 h2 =
        some ⟨h2, c2, m2, s2, [C, D]⟩ := by
  have hbrowse : browseEntries enc [⟨h1, c1, m1, s1, [A, B]⟩, ⟨h2, c2, m2, s2, [C, D]⟩] =
      ([hostLine ⟨h1, c1, m1, s1, [A, B]⟩, pinLine enc A, pinLine enc B,
        hostLine ⟨h2, c2, m2, s2, [C, D]⟩, pinLine enc C, pinLine enc D], 4) := by
    simp [browseEntries]
  have hsave : wget_hpkp_db_save enc false stat true
      [⟨h1, c1, m1, s1, [A, B]⟩, ⟨h2, c2, m2, s2, [C, D]⟩] =
      ⟨.count 4, some (headerLines ++
        [hostLine ⟨h1, c1, m1, s1, [A, B]⟩, pinLine enc A, pinLine enc B,
         hostLine ⟨h2, c2, m2, s2, [C, D]⟩, pinLine enc C, pinLine enc D]), false⟩ := by
    simp only [wget_hpkp_db_save]
    rw [if_neg (by simp)]
    rw [if_neg hstat]
    rw [if_neg (by simp)]
    rw [if_neg (by simp)]
    rw [hbrowse]
  have hp1 : __wget_hpkp_parse_host_line vh (hostLine ⟨h1, c1, m1, s1, [A, B]⟩) =
      some (h1, c1, m1, s1, 2) := by
    have hs := parse_host_line_spec vh ⟨h1, c1, m1, s1, [A, B]⟩ hh1 hw1 hv1 hc10 hc11
      (le_of_lt hm10) hm11 (by simp) (by simp [ULONG_MAX])
    simpa using hs
  have hp2 : __wget_hpkp_parse_host_line vh (hostLine ⟨h2, c2, m2, s2, [C, D]⟩) =
      some (h2, c2, m2, s2, 2) := by
    have hs := parse_host_line_spec vh ⟨h2, c2, m2, s2, [C, D]⟩ hh2 hw2 hv2 hc20 hc21
      (le_of_lt hm20) hm21 (by simp) (by simp [ULONG_MAX])
    simpa using hs
  have hic1 : isComment (hostLine ⟨h1, c1, m1, s1, [A, B]⟩) = false :=
    isComment_hostLine ⟨h1, c1, m1, s1, [A, B]⟩ hh1 hcm1
  have hic2 : isComment (hostLine ⟨h2, c2, m2, s2, [C, D]⟩) = false :=
    isComment_hostLine ⟨h2, c2, m2, s2, [C, D]⟩ hh2 hcm2
  have hpinA := parse_pin_line_spec enc A heA hwA
  have hpinB := parse_pin_line_spec enc B heB hwB
  have hpinC := parse_pin_line_spec enc C heC hwC
  have hpinD := parse_pin_line_spec enc D heD hwD
  have hputA : __wget_hpkp_db_put_base64_spki dec (wget_hpkp_new h1 c1 m1 s1) (enc A) =
      ⟨h1, c1, m1, s1, [A]⟩ := by
    rw [put_b64_new, hdA]
  have hputB : __wget_hpkp_db_put_base64_spki dec (⟨h1, c1, m1, s1, [A]⟩ : wget_hpkp_t)
      (enc B) = ⟨h1, c1, m1, s1, [A, B]⟩ := by
    have hs := put_b64_second dec h1 c1 m1 s1 A (enc B) hA
      (by rw [hdB]; exact hB) (by rw [hdB]; exact hAB)
    rw [hdB] at hs
    exact hs
  have hputC : __wget_hpkp_db_put_base64_spki dec (wget_hpkp_new h2 c2 m2 s2) (enc C) =
      ⟨h2, c2, m2, s2, [C]⟩ := by
    rw [put_b64_new, hdC]
  have hputD : __wget_hpkp_db_put_base64_spki dec (⟨h2, c2, m2, s2, [C]⟩ : wget_hpkp_t)
      (enc D) = ⟨h2, c2, m2, s2, [C, D]⟩ := by
    have hs := put_b64_second dec h2 c2 m2 s2 C (enc D) hC
      (by rw [hdD]; exact hD) (by rw [hdD]; exact hCD)
    rw [hdD] at hs
    exact hs
  have hadd1 : (__wget_hpkp_db_add [] (⟨h1, c1, m1, s1, [A, B]⟩ : wget_hpkp_t) true now).2 =
      [⟨h1, c1, m1, s1, [A, B]⟩] := by
    have hs := add_fresh_ok [] ⟨h1, c1, m1, s1, [A, B]⟩ now rfl (by simpa using (by omega : m1 ≠ 0))
      (by simp) (fun hx => hnx1 (by simpa using hx.2))
    rw [hs]
    rfl
  have hget2 : hpkp_db_get [(⟨h1, c1, m1, s1, [A, B]⟩ : wget_hpkp_t)] h2 = none := by
    unfold hpkp_db_get
    rw [List.find?_cons_of_neg _ (by simpa using h12)]
    rfl
  have hadd2 : (__wget_hpkp_db_add [(⟨h1, c1, m1, s1, [A, B]⟩ : wget_hpkp_t)]
      (⟨h2, c2, m2, s2, [C, D]⟩ : wget_hpkp_t) true now).2 =
      [⟨h1, c1, m1, s1, [A, B]⟩, ⟨h2, c2, m2, s2, [C, D]⟩] := by
    have hs := add_fresh_ok [⟨h1, c1, m1, s1, [A, B]⟩] ⟨h2, c2, m2, s2, [C, D]⟩ now hget2
      (by simpa using (by omega : m2 ≠ 0)) (by simp) (fun hx => hnx2 (by simpa using hx.2))
    rw [hs]
    rfl
  have hload : loadAux vh dec now
      (headerLines ++
        [hostLine ⟨h1, c1, m1, s1, [A, B]⟩, pinLine enc A, pinLine enc B,
         hostLine ⟨h2, c2, m2, s2, [C, D]⟩, pinLine enc C, pinLine enc D])
      [] .expectVersion =
      (.OK, [⟨h1, c1, m1, s1, [A, B]⟩, ⟨h2, c2, m2, s2, [C, D]⟩]) := by
    simp only [headerLines, List.cons_append, List.nil_append]
    rw [loadAux_version_comment _ _ _ (by decide)]
    rw [loadAux_version_comment _ _ _ (by decide)]
    rw [loadAux_version_comment _ _ _ (by decide)]
    rw [loadAux_version_accept]
    rw [loadAux_host_step _ _ _ _ _ _ _ _ hic1 hp1]
    rw [loadAux_pin_two _ _ _ _ _ hpinA]
    rw [hputA]
    rw [loadAux_pin_last _ _ _ _ _ hpinB]
    rw [hputB, hadd1]
    rw [loadAux_host_step _ _ _ _ _ _ _ _ hic2 hp2]
    rw [loadAux_pin_two _ _ _ _ _ hpinC]
    rw [hputC]
    rw [loadAux_pin_last _ _ _ _ _ hpinD]
    rw [hputD, hadd2]
    rfl
  have hloadw : wget_hpkp_db_load vh dec now true true
      (headerLines ++
        [hostLine ⟨h1, c1, m1, s1, [A, B]⟩, pinLine enc A, pinLine enc B,
         hostLine ⟨h2, c2, m2, s2, [C, D]⟩, pinLine enc C, pinLine enc D]) [] =
      (.OK, [⟨h1, c1, m1, s1, [A, B]⟩, ⟨h2, c2, m2, s2, [C, D]⟩]) := by
    simp only [wget_hpkp_db_load]
    rw [if_neg (by simp), if_neg (by simp)]
    exact hload
  have hlook1 : hpkp_db_get
      [(⟨h1, c1, m1, s1, [A, B]⟩ : wget_hpkp_t), ⟨h2, c2, m2, s2, [C, D]⟩] h1 =
      some ⟨h1, c1, m1, s1, [A, B]⟩ := by
    unfold hpkp_db_get
    rw [List.find?_cons_of_pos _ (by simp)]
  have hlook2 : hpkp_db_get
      [(⟨h1, c1, m1, s1, [A, B]⟩ : wget_hpkp_t), ⟨h2, c2, m2, s2, [C, D]⟩] h2 =
      some ⟨h2, c2, m2, s2, [C, D]⟩ := by
    unfold hpkp_db_get
    rw [List.find?_cons_of_neg _ (by simpa using h12)]
    rw [List.find?_cons_of_pos _ (by simp)]
  refine ⟨by rw [hsave], headerLines ++
      [hostLine ⟨h1, c1, m1, s1, [A, B]⟩, pinLine enc A, pinLine enc B,
       hostLine ⟨h2, c2, m2, s2, [C, D]⟩, pinLine enc C, pinLine enc D],
    by rw [hsave], hloadw, ?_, ?_⟩
  · rw [hloadw]
    exact hlook1
  · rw [hloadw]
    exact hlook2

set_option maxHeartbeats 1000000 in
theorem c2_save_load_roundtrip_witness :
    (wget_hpkp_db_save (fun p => p.map digitChar) false none true
        [⟨"h1".data, 5, 100, false, [List.replicate 32 0, List.replicate 32 1]⟩,
         ⟨"h2".data, 7, 200, true, [List.replicate 32 2, List.replicate 32 3]⟩]).retval =
      .count 4 ∧
    ∃ lines,
      (wget_hpkp_db_save (fun p => p.map digitChar) false none true
          [⟨"h1".data, 5, 100, false, [List.replicate 32 0, List.replicate 32 1]⟩,
           ⟨"h2".data, 7, 200, true, [List.replicate 32 2, List.replicate 32 3]⟩]).written =
        some lines ∧
      wget_hpkp_db_load (fun _ => true) (fun cs => cs.map (fun c => c.toNat - 48)) 0
          true true lines [] =
        (.OK, [⟨"h1".data, 5, 100, false, [List.replicate 32 0, List.replicate 32 1]⟩,
               ⟨"h2".data, 7, 200, true, [List.replicate 32 2, List.replicate 32 3]⟩]) ∧
      hpkp_db_get (wget_hpkp_db_load (fun _ => true)
          (fun cs => cs.map (fun c => c.toNat - 48)) 0 true true lines []).2 "h1".data =
        some ⟨"h1".data, 5, 100, false, [List.replicate 32 0, List.replicate 32 1]⟩ ∧
      hpkp_db_get (wget_hpkp_db_load (fun _ => true)
          (fun cs => cs.map (fun c => c.toNat - 48)) 0 true true lines []).2 "h2".data =
        some ⟨"h2".data, 7, 200, true, [List.replicate 32 2, List.replicate 32 3]⟩ := by
  have H := c2_save_load_roundtrip
    (fun p => p.map digitChar)
    (fun cs => cs.map (fun c => c.toNat - 48))
    (fun _ => true) none 0 "h1".data "h2".data
    (List.replicate 32 0) (List.replicate 32 1) (List.replicate 32 2) (List.replicate 32 3)
    5 100 7 200 false true
    (by decide) (by decide) (by decide) (by decide)
    (by intro c hc; simp at hc; subst hc; decide)
    (by intro c hc; simp at hc; subst hc; decide)
    (by decide) (by decide) (by decide)
    (by decide) (by decide) (by decide) (by decide)
    (by decide) (by decide) (by decide) (by decide) (by decide) (by decide)
    (by decide) (by decide) (by decide) (by decide)
    (by decide) (by decide) (by decide) (by decide)
    (by decide) (by decide) (by decide) (by decide)
    (by decide) (by decide) (by decide) (by decide)
    (by decide) (by decide) (by decide) (by decide)
    (by decide) (by decide) (by decide)
  exact H
